import Mathlib

/-!
Verification of the DArray container from src/dynamic_array.hpp.

DArray<ElementT, AllocatorT> owns a raw storage block (_data), a count of
live elements (_size) and a count of allocated slots (_capacity), plus an
allocator held by value.  The embedding models:

* store    : slot contents of the owned block; some v is a live element,
             none is a raw (allocated but unconstructed, or freed) slot;
* size     : _size;
* cap      : _capacity;
* dataNull : whether _data is the null pointer.

size_t arithmetic is modelled by Nat: every count the source manipulates is
kept at or below maxSize() = (largest size_t value) / sizeof(ElementT), so
no expression in the translated paths wraps around.

Failure is explicit.  Allocation failure comes from an oracle af : Nat → Bool
(the allocator may refuse any request; allocateData also fails when the
requested count exceeds maxSize).  Element copy-construction failure comes
from an oracle cf : α → Bool (the element copy constructor may throw,
depending on the value being copied), matching the Probe element type of
dynamic_array_test.cpp.  Move construction and destruction never fail,
exactly as the source assumes: moveRange, shiftTailRight, shiftTailLeft and
all destructor calls run without exception guards or are noexcept.  A
fallible operation returns Option Err × DArr α: the error it raises, if
any, together with the state the object is left in when the call returns or
throws.
-/

namespace DynArray

/-- Errors raised by DArray operations: std bad_alloc, std length_error and
an exception escaping an element constructor. -/
inductive Err where
  | badAlloc
  | lengthError
  | elemCtorFail
  deriving DecidableEq, Repr

/-- Largest value of size_t on the target platform (64 bit). -/
def sizeTMax : Nat := 2 ^ 64 - 1

/-- DArray::maxSize(): the largest size_t value divided by sizeof(ElementT). -/
def maxSizeFor (elemSize : Nat) : Nat := sizeTMax / elemSize

/-- maxSize() for DArray of int (sizeof(int) = 4); used in concrete instances. -/
def maxSizeInt : Nat := maxSizeFor 4

/-- State of a DArray object: slot contents of the owned block, _size,
_capacity, and whether _data is null. -/
@[ext]
structure DArr (α : Type) where
  store : Nat → Option α
  size : Nat
  cap : Nat
  dataNull : Bool

variable {α : Type}

/-- DArray(): the default constructor allocates nothing. -/
def emptyArr : DArr α := ⟨fun _ => none, 0, 0, true⟩

/-- DArray::allocateData(n): throws bad_alloc when n exceeds maxSize, and
bad_alloc when the allocator itself fails (oracle af); on success the
allocator returns a non-null block. -/
def allocateData (ms : Nat) (af : Nat → Bool) (n : Nat) : Option Err :=
  if n > ms then some Err.badAlloc
  else if af n then some Err.badAlloc
  else none

/-- DArray::constructOneAtEnd(args): constructs into slot _size and then
increments _size. -/
def constructOneAtEnd (s : DArr α) (x : α) : DArr α :=
  ⟨fun i => if i = s.size then some x else s.store i, s.size + 1, s.cap, s.dataNull⟩

/-- DArray::destructAtEnd(n): destroys the last n live elements (in reverse
order) and decrements _size by n. -/
def destructAtEnd (s : DArr α) (n : Nat) : DArr α :=
  ⟨fun i => if s.size - n ≤ i ∧ i < s.size then none else s.store i,
   s.size - n, s.cap, s.dataNull⟩

/-- DArray::shiftTailRight(position, n): move-constructs the elements of
[position, _size) into [position + n, _size + n) working from the end
backwards, destroying each source slot; the net effect under Invariant 1 is
that slots [position, position + n) are left raw, _size grows by n and
slots at or beyond _size + n keep their (raw) contents. -/
def shiftTailRight (s : DArr α) (p n : Nat) : DArr α :=
  ⟨fun i =>
      if i < p then s.store i
      else if i < p + n then none
      else if i < s.size + n then s.store (i - n)
      else s.store i,
   s.size + n, s.cap, s.dataNull⟩

/-- DArray::shiftTailLeft(position, n): move-constructs the elements of
[position, _size) into [position - n, _size - n) working left to right,
destroying each source slot; the net effect is that slots
[_size - n, _size) are left raw and _size shrinks by n. -/
def shiftTailLeft (s : DArr α) (p n : Nat) : DArr α :=
  ⟨fun i =>
      if i < p - n then s.store i
      else if i < s.size - n then s.store (i + n)
      else if i < s.size then none
      else s.store i,
   s.size - n, s.cap, s.dataNull⟩

/-- DArray::destructAt(position, n): destroys the n elements at
[position, position + n) (in reverse order) and closes the gap with
shiftTailLeft(position + n, n). -/
def destructAt (s : DArr α) (p n : Nat) : DArr α :=
  shiftTailLeft
    ⟨fun i => if p ≤ i ∧ i < p + n then none else s.store i, s.size, s.cap, s.dataNull⟩
    (p + n) n

/-- DArray::clear(): destroys all live elements; capacity and _data are
kept. -/
def clear (s : DArr α) : DArr α :=
  if s.dataNull then s else destructAtEnd s s.size

/-- DArray::deallocate(): releases the block and resets _data, _size and
_capacity to the empty state. -/
def deallocate (_s : DArr α) : DArr α :=
  ⟨fun _ => none, 0, 0, true⟩

/-- DArray::destroy(): when _data is non-null, destroys all elements and
deallocates. -/
def destroyOp (s : DArr α) : DArr α :=
  if s.dataNull then s else deallocate (destructAtEnd s s.size)

/-- DArray::extendedCapacity(requiredCapacity): throws length_error above
maxSize; returns maxSize once _capacity has reached half of it, and
otherwise max(2 x _capacity, requiredCapacity). -/
def extendedCapacity (ms cap required : Nat) : Except Err Nat :=
  if required > ms then Except.error Err.lengthError
  else if cap ≥ ms / 2 then Except.ok ms
  else Except.ok (max (cap * 2) required)

/-- DArray::growAndConstructOneAt(position, args): picks the grown capacity,
allocates a transaction block, constructs the new element in its final slot
of the new block, moves the old elements around it, destroys the old
elements (clear) and adopts the new block.  Failure of any fallible step
leaves the array untouched (the AllocateTransaction destructor discards the
candidate block). -/
def growAndConstructOneAt (ms : Nat) (af : Nat → Bool) (cf : α → Bool)
    (s : DArr α) (p : Nat) (x : α) : Option Err × DArr α :=
  match extendedCapacity ms s.cap (s.size + 1) with
  | Except.error e => (some e, s)
  | Except.ok newCap =>
    match allocateData ms af newCap with
    | some e => (some e, s)
    | none =>
      if cf x then (some Err.elemCtorFail, s)
      else
        (none,
         ⟨fun i =>
            if i < p then s.store i
            else if i = p then some x
            else if i < s.size + 1 then s.store (i - 1)
            else none,
          s.size + 1, newCap, false⟩)

/-- DArray::shiftAndConstructOneAt(position, element), copy overload: opens
a one-slot gap with shiftTailRight, re-aims the source pointer when it lies
inside [position, end()) after the shift, then copy-constructs into the gap
under a ShiftArrayTailLeft guard that shifts the tail back if the copy
throws.  The element reference is either a slot index of this very array
(aliasing case, Sum.inl) or a value from outside the array (Sum.inr).
Reading a raw slot would be undefined behaviour in the source; the model
maps it to the failure path, and every theorem below reads live slots
only. -/
def shiftAndConstructOneAt (cf : α → Bool) (s : DArr α) (p : Nat)
    (src : Nat ⊕ α) : Option Err × DArr α :=
  let s1 := shiftTailRight s p 1
  let srcVal : Option α :=
    match src with
    | Sum.inl idx => s1.store (if p ≤ idx ∧ idx < s1.size then idx + 1 else idx)
    | Sum.inr x => some x
  match srcVal with
  | some x =>
      if cf x then (some Err.elemCtorFail, shiftTailLeft s1 (p + 1) 1)
      else (none, ⟨fun i => if i = p then some x else s1.store i, s1.size, s1.cap, s1.dataNull⟩)
  | none => (some Err.elemCtorFail, shiftTailLeft s1 (p + 1) 1)

/-- DArray::insert(position, element), copy overload: with spare capacity it
constructs at the end or shifts and constructs in the middle; at full
capacity it relocates to a grown block.  The element argument here is a
value from outside the array; the aliasing case is analysed through
shiftAndConstructOneAt directly. -/
def insertAt (ms : Nat) (af : Nat → Bool) (cf : α → Bool)
    (s : DArr α) (p : Nat) (x : α) : Option Err × DArr α :=
  if s.size < s.cap then
    if p = s.size then
      if cf x then (some Err.elemCtorFail, s) else (none, constructOneAtEnd s x)
    else shiftAndConstructOneAt cf s p (Sum.inr x)
  else growAndConstructOneAt ms af cf s p x

/-- DArray::push(element), copy overload. -/
def push (ms : Nat) (af : Nat → Bool) (cf : α → Bool)
    (s : DArr α) (x : α) : Option Err × DArr α :=
  if s.size < s.cap then
    if cf x then (some Err.elemCtorFail, s) else (none, constructOneAtEnd s x)
  else growAndConstructOneAt ms af cf s s.size x

/-- DArray::pop(). -/
def pop (s : DArr α) : DArr α := destructAtEnd s 1

/-- DArray::erase(position), single element form. -/
def erase (s : DArr α) (p : Nat) : DArr α :=
  if p + 1 = s.size then destructAtEnd s 1 else destructAt s p 1

/-- DArray::copy(element, n), the engine of assign(element, n): for n > 0 it
allocates a fresh transaction block of exactly n slots, fills it with copies
of element (copyElement), and only then clears the old elements and adopts
the block; for n = 0 it just clears. -/
def copyFill (ms : Nat) (af : Nat → Bool) (cf : α → Bool)
    (s : DArr α) (x : α) (n : Nat) : Option Err × DArr α :=
  if 0 < n then
    match allocateData ms af n with
    | some e => (some e, s)
    | none =>
      if cf x then (some Err.elemCtorFail, s)
      else (none, ⟨fun i => if i < n then some x else none, n, n, false⟩)
  else (none, clear s)

/-- DArray::copy(first, last, n), the engine of assign(first, last), of the
assignment from a literal list and of copy assignment from a distinct
array; the source range is the list xs. -/
def copyRange (ms : Nat) (af : Nat → Bool) (cf : α → Bool)
    (s : DArr α) (xs : List α) : Option Err × DArr α :=
  if 0 < xs.length then
    match allocateData ms af xs.length with
    | some e => (some e, s)
    | none =>
      if xs.any cf then (some Err.elemCtorFail, s)
      else (none, ⟨fun i => xs[i]?, xs.length, xs.length, false⟩)
  else (none, clear s)

/-- DArray::reserve(n): no-op when n fits; length_error above maxSize;
otherwise allocates a block of exactly n slots, moves the elements across
and adopts it. -/
def reserve (ms : Nat) (af : Nat → Bool) (s : DArr α) (n : Nat) :
    Option Err × DArr α :=
  if n > s.cap then
    if n > ms then (some Err.lengthError, s)
    else
      match allocateData ms af n with
      | some e => (some e, s)
      | none =>
        (none, ⟨fun i => if i < s.size then s.store i else none, s.size, n, false⟩)
  else (none, s)

/-- DArray::shrinkToFit(): advisory and noexcept; reallocates to exactly
_size slots, deallocates outright when _size = 0, and swallows any
allocation failure, leaving the array merely unshrunk. -/
def shrinkToFit (ms : Nat) (af : Nat → Bool) (s : DArr α) : DArr α :=
  if s.cap > s.size then
    if 0 < s.size then
      match allocateData ms af s.size with
      | some _ => s
      | none => ⟨fun i => if i < s.size then s.store i else none, s.size, s.size, false⟩
    else deallocate s
  else s

/-- DArray::swap(other): exchanges _data, _size and _capacity of the two
arrays.  The slot contents travel with _data.  Note that the allocator
member is not exchanged by the source; that aspect is modelled separately
by swapA below. -/
def swapOp (a b : DArr α) : DArr α × DArr α :=
  (⟨b.store, b.size, b.cap, b.dataNull⟩, ⟨a.store, a.size, a.cap, a.dataNull⟩)

/-- DArray(DArray&& other): default-constructs the members, then swaps with
the source; never allocates and cannot fail.  Returns (new object, source
after the move). -/
def moveCtor (src : DArr α) : DArr α × DArr α :=
  swapOp emptyArr src

/-- DArray::operator=(DArray&& other) for distinct objects: destroys the
current content, then swaps with the source; cannot fail.  Returns
(assigned-to object, source after the move).  Self-assignment is an
explicit no-op in the source (address check). -/
def moveAssign (dst src : DArr α) : DArr α × DArr α :=
  swapOp (destroyOp dst) src

/-- Invariants 2 and 3 of the specification: _data is null exactly when
_capacity is 0, and _size ≤ _capacity ≤ maxSize. -/
def invariants (ms : Nat) (s : DArr α) : Prop :=
  (s.dataNull = true ↔ s.cap = 0) ∧ s.size ≤ s.cap ∧ s.cap ≤ ms

/-- Slots at or beyond _size hold no live element (the raw-tail half of
Invariant 1). -/
def tailRaw (s : DArr α) : Prop :=
  ∀ i, s.size ≤ i → s.store i = none

/-- Result state of a push that meets no failure (both oracles quiet). -/
def pushSimple (ms : Nat) (s : DArr α) (x : α) : DArr α :=
  (push ms (fun _ => false) (fun _ => false) s x).2

/-- State after k successive push calls on a default-constructed array. -/
def pushIter (ms : Nat) (x : α) : Nat → DArr α
  | 0 => emptyArr
  | k + 1 => pushSimple ms (pushIter ms x k) x

/-- Observable allocator and element-lifetime events of a constructor
run. -/
inductive Event where
  | alloc (n : Nat)
  | ctor (slot : Nat)
  | dtor (slot : Nat)
  | dealloc
  deriving DecidableEq, Repr

/-- Element construction loop shared by the allocating constructors through
constructDefaultElements, copyElement and copyRange: constructs slots i,
i + 1, ... left to right; when constructing slot j throws (oracle fails),
the DestructRangeInReverse guard destroys the previously constructed slots
in reverse order of construction.  Returns the event trace and whether the
loop completed. -/
def constructSlots (fails : Nat → Bool) : Nat → Nat → List Event × Bool
  | _, 0 => ([], true)
  | i, n + 1 =>
    if fails i then ([], false)
    else
      let r := constructSlots fails (i + 1) n
      (Event.ctor i :: (r.1 ++ if r.2 then [] else [Event.dtor i]), r.2)

/-- Event trace of the allocating constructors.  The size-n, fill, range,
literal-list and copy constructors all share one structure: guard
DestroyArray; allocate(n); construct n elements left to right; complete the
guard.  When an element construction fails the inner guard destroys the
constructed prefix in reverse, then DestroyArray fires: destructAtEnd(0)
destroys nothing (_size is still 0 at that point) and deallocate releases
the block.  Returns the trace together with some n on success and none when
the constructor threw. -/
def sizeCtor (allocFails : Bool) (fails : Nat → Bool) (n : Nat) :
    List Event × Option Nat :=
  if n = 0 then ([], some 0)
  else if allocFails then ([], none)
  else
    let r := constructSlots fails 0 n
    if r.2 then (Event.alloc n :: r.1, some n)
    else (Event.alloc n :: (r.1 ++ [Event.dealloc]), none)

/-- Allocator-propagation model of DArray: _data as a block identity
(0 = null), _size, _capacity and the value-held allocator member, where a
stateful allocator is modelled by a tag. -/
structure DArrA where
  dataPtr : Nat
  size : Nat
  cap : Nat
  alloc : Nat
  deriving DecidableEq, Repr

/-- DArray::swap on the allocator model: the source swaps only _data, _size
and _capacity; the allocator members stay where they are. -/
def swapA (a b : DArrA) : DArrA × DArrA :=
  (⟨b.dataPtr, b.size, b.cap, a.alloc⟩, ⟨a.dataPtr, a.size, a.cap, b.alloc⟩)

/-- DArray(DArray&&) on the allocator model: all members are
default-constructed (_data null, counts 0, allocator member built with the
default tag d), then swap(other) runs. -/
def moveCtorA (d : Nat) (src : DArrA) : DArrA × DArrA :=
  swapA ⟨0, 0, 0, d⟩ src

/-- DArray::destroy on the allocator model. -/
def destroyA (s : DArrA) : DArrA := ⟨0, 0, 0, s.alloc⟩

/-- DArray::operator=(DArray&&) on the allocator model, distinct objects. -/
def moveAssignA (dst src : DArrA) : DArrA × DArrA :=
  swapA (destroyA dst) src

/-- Concrete array used by the witnesses: live elements 10 and 11 in the
first two slots, capacity 4. -/
def wStore : Nat → Option Nat := fun i => if i < 2 then some (i + 10) else none

/-- Concrete two-element array with spare capacity, for witnesses. -/
def wArr : DArr Nat := ⟨wStore, 2, 4, false⟩

theorem wArr_tailRaw : tailRaw wArr := by
  intro i hi
  have h2 : 2 ≤ i := hi
  show (if i < 2 then some (i + 10) else none) = none
  rw [if_neg (by omega)]

theorem wArr_inv : invariants maxSizeInt wArr := by
  refine ⟨by simp [wArr], by decide, by decide⟩

/-- Undoing a right shift with the matching left shift restores the state
exactly; this is the rollback primitive behind the ShiftArrayTailLeft
guard. -/
theorem shiftTail_rollback (s : DArr α) (p n : Nat) (hp : p ≤ s.size)
    (ht : tailRaw s) :
    shiftTailLeft (shiftTailRight s p n) (p + n) n = s := by
  apply DArr.ext
  · funext i
    dsimp only [shiftTailLeft, shiftTailRight]
    split_ifs <;> first
      | rfl
      | omega
      | (congr 1; omega)
      | (exact (ht i (by omega)).symm)
  · dsimp only [shiftTailLeft, shiftTailRight]; omega
  · rfl
  · rfl

theorem extendedCapacity_ok_bounds {ms cap required r : Nat}
    (h : extendedCapacity ms cap required = Except.ok r) :
    required ≤ r ∧ r ≤ ms := by
  unfold extendedCapacity at h
  split_ifs at h with h1 h2 <;>
    simp only [Except.ok.injEq, reduceCtorEq] at h
  · subst h; omega
  · subst h; omega

theorem allocateData_none {ms : Nat} {af : Nat → Bool} {n : Nat}
    (h : allocateData ms af n = none) : n ≤ ms ∧ af n = false := by
  unfold allocateData at h
  split_ifs at h with h1 h2
  · exact ⟨by omega, by simpa using h2⟩

theorem grow_fail_unchanged {ms : Nat} {af : Nat → Bool} {cf : α → Bool}
    {s : DArr α} {p : Nat} {x : α}
    (h : (growAndConstructOneAt ms af cf s p x).1.isSome = true) :
    (growAndConstructOneAt ms af cf s p x).2 = s := by
  unfold growAndConstructOneAt at h ⊢
  split at h
  next e heq => rfl
  next newCap heq =>
    split at h
    next e heq2 => rfl
    next heq2 =>
      split at h
      next hcf => rw [if_pos hcf]
      next hcf => simp at h

theorem push_fail_unchanged {ms : Nat} {af : Nat → Bool} {cf : α → Bool}
    {s : DArr α} {x : α}
    (h : (push ms af cf s x).1.isSome = true) :
    (push ms af cf s x).2 = s := by
  unfold push at h ⊢
  by_cases h1 : s.size < s.cap
  · rw [if_pos h1] at h ⊢
    by_cases hcf : cf x = true
    · rw [if_pos hcf]
    · rw [if_neg hcf] at h; simp at h
  · rw [if_neg h1] at h ⊢
    exact grow_fail_unchanged h

theorem insertAt_fail_unchanged {ms : Nat} {af : Nat → Bool} {cf : α → Bool}
    {s : DArr α} {p : Nat} {x : α}
    (ht : tailRaw s) (hp : p ≤ s.size)
    (h : (insertAt ms af cf s p x).1.isSome = true) :
    (insertAt ms af cf s p x).2 = s := by
  unfold insertAt at h ⊢
  by_cases h1 : s.size < s.cap
  · rw [if_pos h1] at h ⊢
    by_cases h2 : p = s.size
    · rw [if_pos h2] at h ⊢
      by_cases hcf : cf x = true
      · rw [if_pos hcf]
      · rw [if_neg hcf] at h; simp at h
    · rw [if_neg h2] at h ⊢
      unfold shiftAndConstructOneAt at h ⊢
      dsimp only at h ⊢
      by_cases hcf : cf x = true
      · rw [if_pos hcf]
        exact shiftTail_rollback s p 1 hp ht
      · rw [if_neg hcf] at h; simp at h
  · rw [if_neg h1] at h ⊢
    exact grow_fail_unchanged h

theorem copyFill_fail_unchanged {ms : Nat} {af : Nat → Bool} {cf : α → Bool}
    {s : DArr α} {x : α} {n : Nat}
    (h : (copyFill ms af cf s x n).1.isSome = true) :
    (copyFill ms af cf s x n).2 = s := by
  unfold copyFill at h ⊢
  by_cases hn : 0 < n
  · rw [if_pos hn] at h ⊢
    split at h
    next e heq => rfl
    next heq =>
      split at h
      next hcf => rw [if_pos hcf]
      next hcf => simp at h
  · rw [if_neg hn] at h; simp at h

theorem copyRange_fail_unchanged {ms : Nat} {af : Nat → Bool} {cf : α → Bool}
    {s : DArr α} {xs : List α}
    (h : (copyRange ms af cf s xs).1.isSome = true) :
    (copyRange ms af cf s xs).2 = s := by
  unfold copyRange at h ⊢
  by_cases hn : 0 < xs.length
  · rw [if_pos hn] at h ⊢
    split at h
    next e heq => rfl
    next heq =>
      split at h
      next hcf => rw [if_pos hcf]
      next hcf => simp at h
  · rw [if_neg hn] at h; simp at h

theorem reserve_fail_unchanged {ms : Nat} {af : Nat → Bool}
    {s : DArr α} {n : Nat}
    (h : (reserve ms af s n).1.isSome = true) :
    (reserve ms af s n).2 = s := by
  unfold reserve at h ⊢
  by_cases h1 : n > s.cap
  · rw [if_pos h1] at h ⊢
    by_cases h2 : n > ms
    · rw [if_pos h2]
    · rw [if_neg h2] at h ⊢
      split at h
      next e heq => rfl
      next heq => simp at h
  · rw [if_neg h1] at h; simp at h

theorem shrink_preserves (ms : Nat) (af : Nat → Bool) (s : DArr α) :
    (shrinkToFit ms af s).size = s.size ∧
      ∀ i, i < s.size → (shrinkToFit ms af s).store i = s.store i := by
  unfold shrinkToFit
  by_cases h1 : s.cap > s.size
  · rw [if_pos h1]
    by_cases h2 : 0 < s.size
    · rw [if_pos h2]
      split
      next e heq =>
        exact ⟨rfl, fun i _ => rfl⟩
      next heq =>
        exact ⟨rfl, fun i hi => by dsimp only; rw [if_pos hi]⟩
    · rw [if_neg h2]
      exact ⟨by dsimp [deallocate]; omega, fun i hi => absurd hi (by omega)⟩
  · rw [if_neg h1]
    exact ⟨rfl, fun i _ => rfl⟩

/-- C1: for every modelled mutating DArray operation that can fail (push,
insert, the assignment engine copy in both fill and range form, reserve),
if the operation fails then the state — size, capacity, data-pointer
nullness and every slot content — is exactly the pre-call state; for
shrinkToFit only size and the live element values are guaranteed unchanged
(weak guarantee), while its capacity may or may not have shrunk. -/
theorem darray_strong_exception_safety (ms : Nat) (af : Nat → Bool) (cf : α → Bool)
    (s : DArr α) (x : α) (p n : Nat) (xs : List α)
    (ht : tailRaw s) (hp : p ≤ s.size) :
    ((push ms af cf s x).1.isSome = true → (push ms af cf s x).2 = s)
  ∧ ((insertAt ms af cf s p x).1.isSome = true → (insertAt ms af cf s p x).2 = s)
  ∧ ((copyFill ms af cf s x n).1.isSome = true → (copyFill ms af cf s x n).2 = s)
  ∧ ((copyRange ms af cf s xs).1.isSome = true → (copyRange ms af cf s xs).2 = s)
  ∧ ((reserve ms af s n).1.isSome = true → (reserve ms af s n).2 = s)
  ∧ ((shrinkToFit ms af s).size = s.size
      ∧ ∀ i, i < s.size → (shrinkToFit ms af s).store i = s.store i) :=
  ⟨fun h => push_fail_unchanged h,
   fun h => insertAt_fail_unchanged ht hp h,
   fun h => copyFill_fail_unchanged h,
   fun h => copyRange_fail_unchanged h,
   fun h => reserve_fail_unchanged h,
   shrink_preserves ms af s⟩

theorem darray_strong_exception_safety_witness :
    (push maxSizeInt (fun _ => false) (fun _ => true) wArr 7).2 = wArr :=
  (darray_strong_exception_safety maxSizeInt (fun _ => false) (fun _ => true)
      wArr 7 1 1 [] wArr_tailRaw (by decide)).1 (by decide)

theorem pushSimple_spare {ms : Nat} {s : DArr α} {x : α} (h : s.size < s.cap) :
    (pushSimple ms s x).size = s.size + 1 ∧ (pushSimple ms s x).cap = s.cap := by
  unfold pushSimple push
  rw [if_pos h]
  exact ⟨rfl, rfl⟩

theorem pushSimple_grow {ms : Nat} {s : DArr α} {x : α}
    (h1 : s.cap ≤ s.size) (h2 : s.size + 1 ≤ ms) (h3 : s.cap < ms / 2) :
    (pushSimple ms s x).size = s.size + 1 ∧
      (pushSimple ms s x).cap = max (s.cap * 2) (s.size + 1) := by
  unfold pushSimple push growAndConstructOneAt extendedCapacity allocateData
  rw [if_neg (by omega : ¬ s.size < s.cap)]
  rw [if_neg (by omega : ¬ s.size + 1 > ms), if_neg (by omega : ¬ s.cap ≥ ms / 2)]
  dsimp only
  rw [if_neg (by omega : ¬ max (s.cap * 2) (s.size + 1) > ms), if_neg (by simp)]
  dsimp only
  rw [if_neg (by simp)]
  exact ⟨rfl, rfl⟩

theorem pushIter_spec (ms : Nat) (x : α) :
    ∀ k, 1 ≤ k → 2 * k ≤ ms →
      (pushIter ms x k).size = k ∧ (pushIter ms x k).cap = 2 ^ Nat.clog 2 k := by
  intro k
  induction k with
  | zero => omega
  | succ k ih =>
    intro _ hms
    by_cases hk : k = 0
    · subst hk
      have h := @pushSimple_grow α ms emptyArr x
        (by simp [emptyArr]) (by simp [emptyArr]; omega) (by simp [emptyArr]; omega)
      refine ⟨?_, ?_⟩
      · show (pushSimple ms emptyArr x).size = 1
        rw [h.1]
        rfl
      · show (pushSimple ms emptyArr x).cap = 2 ^ Nat.clog 2 1
        rw [h.2, Nat.clog_one_right, pow_zero]
        simp [emptyArr]
    · have hk1 : 1 ≤ k := by omega
      obtain ⟨hsz, hcp⟩ := ih hk1 (by omega)
      have hle : k ≤ 2 ^ Nat.clog 2 k := Nat.le_pow_clog (by norm_num) k
      show (pushSimple ms (pushIter ms x k) x).size = k + 1 ∧
        (pushSimple ms (pushIter ms x k) x).cap = 2 ^ Nat.clog 2 (k + 1)
      by_cases hfull : k < 2 ^ Nat.clog 2 k
      · have hlt : (pushIter ms x k).size < (pushIter ms x k).cap := by
          rw [hsz, hcp]; exact hfull
        obtain ⟨ha, hb⟩ := pushSimple_spare hlt
        have hclog : Nat.clog 2 (k + 1) = Nat.clog 2 k := by
          refine le_antisymm ?_ (Nat.clog_mono_right 2 (by omega))
          exact (Nat.le_pow_iff_clog_le (by norm_num)).1 (by omega)
        exact ⟨by rw [ha, hsz], by rw [hb, hcp, hclog]⟩
      · have hkeq : k = 2 ^ Nat.clog 2 k := by omega
        have hge : (pushIter ms x k).cap ≤ (pushIter ms x k).size := by
          rw [hsz, hcp]; omega
        obtain ⟨ha, hb⟩ := @pushSimple_grow α ms (pushIter ms x k) x hge
          (by rw [hsz]; omega) (by rw [hcp, ← hkeq]; omega)
        have hclog : Nat.clog 2 (k + 1) = Nat.clog 2 k + 1 := by
          refine le_antisymm ?_ ?_
          · exact (Nat.le_pow_iff_clog_le (by norm_num)).1
              (by rw [pow_succ, ← hkeq]; omega)
          · by_contra hcon
            have hle2 : Nat.clog 2 (k + 1) ≤ Nat.clog 2 k := by omega
            have := (Nat.le_pow_iff_clog_le (by norm_num)).2 hle2
            omega
        exact ⟨by rw [ha, hsz],
          by rw [hb, hcp, hsz, ← hkeq, Nat.max_eq_left (by omega), hclog, pow_succ,
            ← hkeq]⟩

/-- C2: for every k with 1 ≤ k and 2 k ≤ maxSize, k successive push calls on
a default-constructed DArray give size k and capacity 2 ^ ceil(log2 k),
which is exactly the doubling schedule 1, 2, 4, 4, 8, 8, 8, 8, 16, ...; in
general extendedCapacity picks max(2 x capacity, requiredCount) capped at
maxSize, and returns exactly maxSize whenever capacity ≥ maxSize / 2. -/
theorem darray_capacity_growth (ms : Nat) (x : α) :
    (∀ k, 1 ≤ k → 2 * k ≤ ms →
        (pushIter ms x k).size = k ∧ (pushIter ms x k).cap = 2 ^ Nat.clog 2 k)
  ∧ (∀ cap required, required ≤ ms →
        extendedCapacity ms cap required
          = Except.ok (if cap ≥ ms / 2 then ms else max (cap * 2) required))
  ∧ (∀ cap required r, extendedCapacity ms cap required = Except.ok r →
        r ≤ ms ∧ (ms / 2 ≤ cap → r = ms)) := by
  refine ⟨pushIter_spec ms x, fun cap required hr => ?_, fun cap required r h => ?_⟩
  · unfold extendedCapacity
    rw [if_neg (by omega)]
    by_cases hc : cap ≥ ms / 2
    · rw [if_pos hc, if_pos hc]
    · rw [if_neg hc, if_neg hc]
  · refine ⟨(extendedCapacity_ok_bounds h).2, fun hc => ?_⟩
    unfold extendedCapacity at h
    split_ifs at h with h1
    simp_all

theorem darray_capacity_growth_witness :
    (pushIter maxSizeInt (0 : Nat) 5).size = 5
  ∧ (pushIter maxSizeInt (0 : Nat) 5).cap = 2 ^ Nat.clog 2 5 :=
  (darray_capacity_growth maxSizeInt 0).1 5 (by decide) (by decide)

theorem constructSlots_fail (fails : Nat → Bool) :
    ∀ m i n, m < n → (∀ j, fails j = true ↔ j = i + m) →
      constructSlots fails i n
        = ((List.range' i m).map Event.ctor
            ++ (List.range' i m).reverse.map Event.dtor, false) := by
  intro m
  induction m with
  | zero =>
    intro i n hn hf
    cases n with
    | zero => omega
    | succ n1 =>
      show constructSlots fails i (n1 + 1) = _
      unfold constructSlots
      rw [if_pos ((hf i).2 (by omega))]
      simp
  | succ m ih =>
    intro i n hn hf
    cases n with
    | zero => omega
    | succ n1 =>
      have hfi : ¬ fails i = true := by
        rw [hf i]; omega
      show constructSlots fails i (n1 + 1) = _
      unfold constructSlots
      rw [if_neg hfi]
      have hrec := ih (i + 1) n1 (by omega) (fun j => by rw [hf j]; omega)
      rw [hrec]
      simp [List.range'_succ, List.append_assoc]

/-- C3: when the k-th element construction of an allocating constructor run
of requested count n fails (1 ≤ k ≤ n), the trace is exactly: one
allocation of n slots, the k - 1 successful constructions left to right,
the destruction of those k - 1 elements in reverse order of construction,
and one matching deallocation; the error propagates and no array object
results (outcome none).  The size-N, fill, range, literal-list and copy
constructors all share this guard structure (sizeCtor). -/
theorem darray_ctor_failure_cleanup (n k : Nat) (hk1 : 1 ≤ k) (hkn : k ≤ n) :
    sizeCtor false (fun j => decide (j = k - 1)) n
      = (Event.alloc n ::
          ((List.range (k - 1)).map Event.ctor
            ++ ((List.range (k - 1)).reverse.map Event.dtor ++ [Event.dealloc])),
         none) := by
  have h := constructSlots_fail (fun j => decide (j = k - 1)) (k - 1) 0 n
    (by omega) (fun j => by simp)
  unfold sizeCtor
  rw [if_neg (by omega : ¬ n = 0)]
  rw [if_neg (by simp : ¬ false = true)]
  dsimp only
  rw [h]
  dsimp only
  rw [if_neg (by simp : ¬ false = true)]
  rw [← List.range_eq_range']
  simp [List.append_assoc]

theorem darray_ctor_failure_cleanup_witness :
    sizeCtor false (fun j => decide (j = 5 - 1)) 10
      = (Event.alloc 10 ::
          ((List.range (5 - 1)).map Event.ctor
            ++ ((List.range (5 - 1)).reverse.map Event.dtor ++ [Event.dealloc])),
         none) :=
  darray_ctor_failure_cleanup 10 5 (by decide) (by decide)

/-- C4: move construction and move assignment leave the source empty
(size 0, capacity 0, data null) and transfer the source element sequence
and capacity to the destination; neither operation allocates or can fail
(both are translated as total functions with no error component and no
allocator oracle). -/
theorem darray_move_leaves_source_empty (ms : Nat) (src dst : DArr α)
    (hdst : invariants ms dst) :
    ((moveCtor src).2.size = 0 ∧ (moveCtor src).2.cap = 0
      ∧ (moveCtor src).2.dataNull = true
      ∧ (moveCtor src).1.store = src.store ∧ (moveCtor src).1.size = src.size
      ∧ (moveCtor src).1.cap = src.cap)
  ∧ ((moveAssign dst src).2.size = 0 ∧ (moveAssign dst src).2.cap = 0
      ∧ (moveAssign dst src).2.dataNull = true
      ∧ (moveAssign dst src).1.store = src.store
      ∧ (moveAssign dst src).1.size = src.size
      ∧ (moveAssign dst src).1.cap = src.cap) := by
  have hd : (destroyOp dst).size = 0 ∧ (destroyOp dst).cap = 0 ∧
      (destroyOp dst).dataNull = true := by
    unfold destroyOp
    by_cases hb : dst.dataNull = true
    · rw [if_pos hb]
      have hc0 := hdst.1.mp hb
      have hs := hdst.2.1
      exact ⟨by omega, hc0, hb⟩
    · rw [if_neg hb]
      exact ⟨rfl, rfl, rfl⟩
  exact ⟨⟨rfl, rfl, rfl, rfl, rfl, rfl⟩, hd.1, hd.2.1, hd.2.2, rfl, rfl, rfl⟩

theorem darray_move_leaves_source_empty_witness :
    (moveAssign wArr wArr).2.size = 0 ∧ (moveAssign wArr wArr).2.cap = 0 :=
  ⟨(darray_move_leaves_source_empty maxSizeInt wArr wArr wArr_inv).2.1,
   (darray_move_leaves_source_empty maxSizeInt wArr wArr wArr_inv).2.2.1⟩

/-- C5: shrinkToFit never signals an error (it is translated as a total
function on states, matching its noexcept and the swallowed exception);
when capacity > size > 0 and the allocation succeeds it reallocates to
exactly size slots preserving every element; when size = 0 and capacity > 0
it deallocates to the empty state (data null, capacity 0); when the
allocation fails it returns the array exactly unchanged, size, elements and
prior capacity included. -/
theorem darray_shrinkToFit_weak (ms : Nat) (af : Nat → Bool) (s : DArr α)
    (hinv : invariants ms s) :
    (s.size < s.cap → 0 < s.size → af s.size = false →
        (shrinkToFit ms af s).cap = s.size ∧ (shrinkToFit ms af s).size = s.size
          ∧ ∀ i, i < s.size → (shrinkToFit ms af s).store i = s.store i)
  ∧ (s.size = 0 → 0 < s.cap →
        (shrinkToFit ms af s).dataNull = true ∧ (shrinkToFit ms af s).cap = 0
          ∧ (shrinkToFit ms af s).size = 0)
  ∧ (0 < s.size → af s.size = true → shrinkToFit ms af s = s)
  ∧ ((shrinkToFit ms af s).size = s.size
      ∧ ∀ i, i < s.size → (shrinkToFit ms af s).store i = s.store i) := by
  refine ⟨fun h1 h2 h3 => ?_, fun h1 h2 => ?_, fun h1 h2 => ?_,
    shrink_preserves ms af s⟩
  · unfold shrinkToFit
    rw [if_pos (by omega : s.cap > s.size), if_pos h2]
    have hA : allocateData ms af s.size = none := by
      unfold allocateData
      have hb1 := hinv.2.1
      have hb2 := hinv.2.2
      rw [if_neg (by omega : ¬ s.size > ms), h3]
      simp
    rw [hA]
    exact ⟨rfl, rfl, fun i hi => by dsimp only; rw [if_pos hi]⟩
  · unfold shrinkToFit
    rw [if_pos (by omega), if_neg (by omega)]
    exact ⟨rfl, rfl, rfl⟩
  · unfold shrinkToFit
    by_cases hc : s.cap > s.size
    · rw [if_pos hc, if_pos h1]
      have hA : ∃ e, allocateData ms af s.size = some e := by
        unfold allocateData
        by_cases hm : s.size > ms
        · rw [if_pos hm]; exact ⟨Err.badAlloc, rfl⟩
        · rw [if_neg hm, if_pos h2]; exact ⟨Err.badAlloc, rfl⟩
      obtain ⟨e, he⟩ := hA
      rw [he]
    · rw [if_neg hc]

theorem darray_shrinkToFit_weak_witness :
    (shrinkToFit maxSizeInt (fun _ => false) wArr).cap = wArr.size
  ∧ (shrinkToFit maxSizeInt (fun _ => false) wArr).size = wArr.size :=
  ⟨((darray_shrinkToFit_weak maxSizeInt (fun _ => false) wArr wArr_inv).1
      (by decide) (by decide) (by decide)).1,
   ((darray_shrinkToFit_weak maxSizeInt (fun _ => false) wArr wArr_inv).1
      (by decide) (by decide) (by decide)).2.1⟩

theorem invariants_emptyArr (ms : Nat) : invariants ms (emptyArr : DArr α) :=
  ⟨by simp [emptyArr], by simp [emptyArr], by simp [emptyArr]⟩

theorem invariants_grow {ms : Nat} {af : Nat → Bool} {cf : α → Bool}
    {s : DArr α} {p : Nat} {x : α} (ha : invariants ms s) :
    invariants ms (growAndConstructOneAt ms af cf s p x).2 := by
  unfold growAndConstructOneAt
  split
  next e heq => exact ha
  next newCap heq =>
    obtain ⟨hb1, hb2⟩ := extendedCapacity_ok_bounds heq
    split
    next e heq2 => exact ha
    next heq2 =>
      split
      next hcf => exact ha
      next hcf =>
        refine ⟨?_, hb1, hb2⟩
        show false = true ↔ newCap = 0
        simp only [Bool.false_eq_true, false_iff]
        omega

theorem invariants_push {ms : Nat} {af : Nat → Bool} {cf : α → Bool}
    {s : DArr α} {x : α} (ha : invariants ms s) :
    invariants ms (push ms af cf s x).2 := by
  obtain ⟨h1, h2, h3⟩ := ha
  unfold push
  by_cases hlt : s.size < s.cap
  · rw [if_pos hlt]
    split
    next hcf => exact ⟨h1, h2, h3⟩
    next hcf => exact ⟨h1, hlt, h3⟩
  · rw [if_neg hlt]
    exact invariants_grow ⟨h1, h2, h3⟩

theorem invariants_insertAt {ms : Nat} {af : Nat → Bool} {cf : α → Bool}
    {s : DArr α} {p : Nat} {x : α} (ha : invariants ms s) :
    invariants ms (insertAt ms af cf s p x).2 := by
  obtain ⟨h1, h2, h3⟩ := ha
  unfold insertAt
  by_cases hlt : s.size < s.cap
  · rw [if_pos hlt]
    by_cases hp : p = s.size
    · rw [if_pos hp]
      split
      next hcf => exact ⟨h1, h2, h3⟩
      next hcf => exact ⟨h1, hlt, h3⟩
    · rw [if_neg hp]
      unfold shiftAndConstructOneAt
      dsimp only
      split
      next hcf => exact ⟨h1, by show s.size + 1 - 1 ≤ s.cap; omega, h3⟩
      next hcf => exact ⟨h1, hlt, h3⟩
  · rw [if_neg hlt]
    exact invariants_grow ⟨h1, h2, h3⟩

theorem invariants_erase {ms : Nat} {s : DArr α} {p : Nat}
    (ha : invariants ms s) : invariants ms (erase s p) := by
  obtain ⟨h1, h2, h3⟩ := ha
  unfold erase
  split
  next => exact ⟨h1, by show s.size - 1 ≤ s.cap; omega, h3⟩
  next => exact ⟨h1, by show s.size - 1 ≤ s.cap; omega, h3⟩

theorem invariants_pop {ms : Nat} {s : DArr α} (ha : invariants ms s) :
    invariants ms (pop s) := by
  obtain ⟨h1, h2, h3⟩ := ha
  exact ⟨h1, by show s.size - 1 ≤ s.cap; omega, h3⟩

theorem invariants_clear {ms : Nat} {s : DArr α} (ha : invariants ms s) :
    invariants ms (clear s) := by
  obtain ⟨h1, h2, h3⟩ := ha
  unfold clear
  split
  next => exact ⟨h1, h2, h3⟩
  next => exact ⟨h1, by show s.size - s.size ≤ s.cap; omega, h3⟩

theorem invariants_destroy {ms : Nat} {s : DArr α} (ha : invariants ms s) :
    invariants ms (destroyOp s) := by
  unfold destroyOp
  split
  next => exact ha
  next => exact invariants_emptyArr ms

theorem invariants_reserve {ms : Nat} {af : Nat → Bool} {s : DArr α} {n : Nat}
    (ha : invariants ms s) : invariants ms (reserve ms af s n).2 := by
  obtain ⟨h1, h2, h3⟩ := ha
  unfold reserve
  by_cases hn : n > s.cap
  · rw [if_pos hn]
    by_cases hm : n > ms
    · rw [if_pos hm]; exact ⟨h1, h2, h3⟩
    · rw [if_neg hm]
      split
      next e heq => exact ⟨h1, h2, h3⟩
      next heq =>
        refine ⟨?_, by show s.size ≤ n; omega, by show n ≤ ms; omega⟩
        show false = true ↔ n = 0
        simp only [Bool.false_eq_true, false_iff]
        omega
  · rw [if_neg hn]; exact ⟨h1, h2, h3⟩

theorem invariants_shrink {ms : Nat} {af : Nat → Bool} {s : DArr α}
    (ha : invariants ms s) : invariants ms (shrinkToFit ms af s) := by
  obtain ⟨h1, h2, h3⟩ := ha
  unfold shrinkToFit
  by_cases hc : s.cap > s.size
  · rw [if_pos hc]
    by_cases hz : 0 < s.size
    · rw [if_pos hz]
      split
      next e heq => exact ⟨h1, h2, h3⟩
      next heq =>
        refine ⟨?_, by show s.size ≤ s.size; omega, by show s.size ≤ ms; omega⟩
        show false = true ↔ s.size = 0
        simp only [Bool.false_eq_true, false_iff]
        omega
    · rw [if_neg hz]
      exact invariants_emptyArr ms
  · rw [if_neg hc]; exact ⟨h1, h2, h3⟩

theorem invariants_copyFill {ms : Nat} {af : Nat → Bool} {cf : α → Bool}
    {s : DArr α} {x : α} {n : Nat} (ha : invariants ms s) :
    invariants ms (copyFill ms af cf s x n).2 := by
  unfold copyFill
  by_cases hn : 0 < n
  · rw [if_pos hn]
    split
    next e heq => exact ha
    next heq =>
      obtain ⟨hm, _hf⟩ := allocateData_none heq
      split
      next hcf => exact ha
      next hcf =>
        refine ⟨?_, by show n ≤ n; omega, hm⟩
        show false = true ↔ n = 0
        simp only [Bool.false_eq_true, false_iff]
        omega
  · rw [if_neg hn]
    exact invariants_clear ha

theorem invariants_copyRange {ms : Nat} {af : Nat → Bool} {cf : α → Bool}
    {s : DArr α} {xs : List α} (ha : invariants ms s) :
    invariants ms (copyRange ms af cf s xs).2 := by
  unfold copyRange
  by_cases hn : 0 < xs.length
  · rw [if_pos hn]
    split
    next e heq => exact ha
    next heq =>
      obtain ⟨hm, _hf⟩ := allocateData_none heq
      split
      next hcf => exact ha
      next hcf =>
        refine ⟨?_, by show xs.length ≤ xs.length; omega, hm⟩
        show false = true ↔ xs.length = 0
        simp only [Bool.false_eq_true, false_iff]
        omega
  · rw [if_neg hn]
    exact invariants_clear ha

theorem invariants_swap {ms : Nat} {a b : DArr α}
    (ha : invariants ms a) (hb : invariants ms b) :
    invariants ms (swapOp a b).1 ∧ invariants ms (swapOp a b).2 :=
  ⟨⟨hb.1, hb.2.1, hb.2.2⟩, ⟨ha.1, ha.2.1, ha.2.2⟩⟩

/-- C6: every modelled public DArray operation, run from states satisfying
the invariants, returns arrays satisfying the invariants again: data is
null exactly when capacity is 0, and size ≤ capacity ≤ maxSize. -/
theorem darray_invariants_preserved (ms : Nat) (af : Nat → Bool) (cf : α → Bool)
    (a b : DArr α) (x : α) (p n : Nat) (xs : List α)
    (ha : invariants ms a) (hb : invariants ms b) :
    invariants ms (push ms af cf a x).2
  ∧ invariants ms (insertAt ms af cf a p x).2
  ∧ invariants ms (erase a p)
  ∧ invariants ms (pop a)
  ∧ invariants ms (clear a)
  ∧ invariants ms (destroyOp a)
  ∧ invariants ms (reserve ms af a n).2
  ∧ invariants ms (shrinkToFit ms af a)
  ∧ invariants ms (copyFill ms af cf a x n).2
  ∧ invariants ms (copyRange ms af cf a xs).2
  ∧ invariants ms (swapOp a b).1 ∧ invariants ms (swapOp a b).2
  ∧ invariants ms (moveCtor a).1 ∧ invariants ms (moveCtor a).2
  ∧ invariants ms (moveAssign a b).1 ∧ invariants ms (moveAssign a b).2 :=
  ⟨invariants_push ha, invariants_insertAt ha, invariants_erase ha,
   invariants_pop ha, invariants_clear ha, invariants_destroy ha,
   invariants_reserve ha, invariants_shrink ha, invariants_copyFill ha,
   invariants_copyRange ha, (invariants_swap ha hb).1, (invariants_swap ha hb).2,
   (invariants_swap (invariants_emptyArr ms) ha).1,
   (invariants_swap (invariants_emptyArr ms) ha).2,
   (invariants_swap (invariants_destroy ha) hb).1,
   (invariants_swap (invariants_destroy ha) hb).2⟩

theorem darray_invariants_preserved_witness :
    invariants maxSizeInt (push maxSizeInt (fun _ => false) (fun _ => false) wArr 7).2 :=
  (darray_invariants_preserved maxSizeInt (fun _ => false) (fun _ => false)
      wArr wArr 7 1 1 [3] wArr_inv wArr_inv).1

/-- C7: inserting, with spare capacity, a value that is a reference into
the same array at slot idx with idx ≥ p: after the one-slot shift the
source pointer lies in [position, end()), the implementation advances it
one slot, and the element constructed at p is exactly the pre-call value of
slot idx; the remaining slots are the ordinary one-slot shift of the
original sequence. -/
theorem darray_insert_aliasing (cf : α → Bool) (s : DArr α) (p idx : Nat) (v : α)
    (hidx : idx < s.size) (hpi : p ≤ idx)
    (hv : s.store idx = some v) (hcf : cf v = false) :
    (shiftAndConstructOneAt cf s p (Sum.inl idx)).1 = none
  ∧ (shiftAndConstructOneAt cf s p (Sum.inl idx)).2.store p = some v
  ∧ (shiftAndConstructOneAt cf s p (Sum.inl idx)).2.size = s.size + 1
  ∧ (shiftAndConstructOneAt cf s p (Sum.inl idx)).2.cap = s.cap
  ∧ (∀ i, i < p →
        (shiftAndConstructOneAt cf s p (Sum.inl idx)).2.store i = s.store i)
  ∧ (∀ i, p < i → i < s.size + 1 →
        (shiftAndConstructOneAt cf s p (Sum.inl idx)).2.store i
          = s.store (i - 1)) := by
  have hread : (shiftTailRight s p 1).store
      (if p ≤ idx ∧ idx < (shiftTailRight s p 1).size then idx + 1 else idx)
      = some v := by
    rw [if_pos ⟨hpi, by show idx < s.size + 1; omega⟩]
    dsimp only [shiftTailRight]
    rw [if_neg (by omega), if_neg (by omega), if_pos (by omega)]
    simpa using hv
  unfold shiftAndConstructOneAt
  dsimp only
  rw [hread]
  dsimp only
  rw [hcf]
  rw [if_neg (by simp : ¬ false = true)]
  refine ⟨rfl, ?_, rfl, rfl, ?_, ?_⟩
  · dsimp only
    rw [if_pos rfl]
  · intro i hi
    dsimp only [shiftTailRight]
    rw [if_neg (by omega : ¬ i = p), if_pos hi]
  · intro i hi1 hi2
    dsimp only [shiftTailRight]
    rw [if_neg (by omega : ¬ i = p), if_neg (by omega : ¬ i < p),
      if_neg (by omega : ¬ i < p + 1), if_pos (by omega : i < s.size + 1)]

theorem darray_insert_aliasing_witness :
    (shiftAndConstructOneAt (fun _ => false) wArr 0 (Sum.inl 1)).1 = none
  ∧ (shiftAndConstructOneAt (fun _ => false) wArr 0 (Sum.inl 1)).2.store 0
      = some 11 := by
  have h := darray_insert_aliasing (fun _ => false) wArr 0 1 11
    (by decide) (by decide) (by decide) (by decide)
  exact ⟨h.1, h.2.1⟩

/-- C9: a successful insert of value x at a valid position p followed by
erase at p restores the original element sequence and the original size;
the capacity may differ (the insert may have grown the block and erase
never shrinks it), which is why only sequence and size are stated. -/
theorem darray_insert_erase_inverse (ms : Nat) (af : Nat → Bool) (cf : α → Bool)
    (s : DArr α) (p : Nat) (x : α)
    (hok : (insertAt ms af cf s p x).1 = none) :
    (erase (insertAt ms af cf s p x).2 p).size = s.size
  ∧ ∀ i, i < s.size →
      (erase (insertAt ms af cf s p x).2 p).store i = s.store i := by
  unfold insertAt at hok ⊢
  by_cases hlt : s.size < s.cap
  · rw [if_pos hlt] at hok ⊢
    by_cases hpe : p = s.size
    · rw [if_pos hpe] at hok ⊢
      split at hok
      next hcf => simp at hok
      next hcf =>
        rw [if_neg hcf]
        constructor
        · unfold erase constructOneAtEnd
          split_ifs <;> (show s.size + 1 - 1 = s.size; omega)
        · intro i hi
          unfold erase constructOneAtEnd
          dsimp only
          split_ifs with h
          · dsimp only [destructAtEnd]
            split_ifs <;> first | rfl | omega
          · dsimp only [destructAt, shiftTailLeft]
            split_ifs <;> first | rfl | omega | (congr 1; omega)
    · rw [if_neg hpe] at hok ⊢
      unfold shiftAndConstructOneAt at hok ⊢
      dsimp only at hok ⊢
      split at hok
      next hcf => simp at hok
      next hcf =>
        rw [if_neg hcf]
        dsimp only [shiftTailRight]
        constructor
        · unfold erase
          dsimp only
          split_ifs <;> (show s.size + 1 - 1 = s.size; omega)
        · intro i hi
          unfold erase
          dsimp only
          split_ifs with h
          · dsimp only [destructAtEnd, shiftTailRight]
            split_ifs <;> first
              | rfl
              | omega
          · dsimp only [destructAt, shiftTailLeft, shiftTailRight]
            split_ifs <;> first
              | rfl
              | omega
              | (congr 1; omega)
  · rw [if_neg hlt] at hok ⊢
    unfold growAndConstructOneAt at hok ⊢
    split at hok
    next e heq => simp at hok
    next newCap heq =>
      split at hok
      next e heq2 => simp at hok
      next heq2 =>
        split at hok
        next hcf => simp at hok
        next hcf =>
          rw [if_neg hcf]
          dsimp only
          constructor
          · unfold erase
            dsimp only
            split_ifs <;> (show s.size + 1 - 1 = s.size; omega)
          · intro i hi
            unfold erase
            dsimp only
            split_ifs with h
            · dsimp only [destructAtEnd]
              split_ifs <;> first | rfl | omega | (congr 1; omega)
            · dsimp only [destructAt, shiftTailLeft]
              split_ifs <;> first | rfl | omega | (congr 1; omega)

theorem darray_insert_erase_inverse_witness :
    (erase (insertAt maxSizeInt (fun _ => false) (fun _ => false) wArr 1 7).2 1).size
      = wArr.size :=
  (darray_insert_erase_inverse maxSizeInt (fun _ => false) (fun _ => false)
    wArr 1 7 (by decide)).1

/-- C8 counterexample: after move construction the destination owns the
source block (dataPtr 5), yet its allocator member is the
default-constructed tag 0 and not the tag 7 of the allocator that allocated
that block; swap likewise exchanges the blocks but not the allocators.  The
source swap exchanges only _data, _size and _capacity, and the move
constructor default-constructs _allocator instead of taking it from the
source. -/
theorem darray_allocator_transfer_cex :
    ((moveCtorA 0 ⟨5, 2, 3, 7⟩).1.dataPtr = 5
      ∧ ¬ (moveCtorA 0 ⟨5, 2, 3, 7⟩).1.alloc = 7)
  ∧ ((swapA ⟨5, 2, 3, 7⟩ ⟨6, 1, 1, 9⟩).1.dataPtr = 6
      ∧ ¬ (swapA ⟨5, 2, 3, 7⟩ ⟨6, 1, 1, 9⟩).1.alloc = 9) := by decide

/-- C8 amended: ownership-transfer operations move only _data, _size and
_capacity; each array keeps the allocator member it already had (move
construction gives the destination a default-constructed allocator, and the
source retains its own), so the allocator value does not accompany the
block it allocated. -/
theorem darray_allocator_stays_put (d : Nat) (src dst : DArrA) :
    ((swapA dst src).1.alloc = dst.alloc ∧ (swapA dst src).2.alloc = src.alloc
      ∧ (swapA dst src).1.dataPtr = src.dataPtr
      ∧ (swapA dst src).2.dataPtr = dst.dataPtr)
  ∧ ((moveCtorA d src).1.alloc = d ∧ (moveCtorA d src).2.alloc = src.alloc
      ∧ (moveCtorA d src).1.dataPtr = src.dataPtr)
  ∧ ((moveAssignA dst src).1.alloc = dst.alloc
      ∧ (moveAssignA dst src).2.alloc = src.alloc
      ∧ (moveAssignA dst src).1.dataPtr = src.dataPtr) :=
  ⟨⟨rfl, rfl, rfl, rfl⟩, ⟨rfl, rfl, rfl⟩, ⟨rfl, rfl, rfl⟩⟩

/-- C10: the assignment engine copy always allocates a fresh block when the
incoming count is positive — the allocator is consulted no matter how large
the current capacity is, and on success capacity and size both equal
exactly the incoming count, with the expected contents; with incoming count
0 all elements are destroyed (size becomes 0) while the block, capacity and
data pointer are kept. -/
theorem darray_assign_exact_capacity (ms : Nat) (af : Nat → Bool) (cf : α → Bool)
    (s : DArr α) (x : α) (n : Nat) (xs : List α) (hinv : invariants ms s) :
    ((copyFill ms af cf s x n).1 = none → 0 < n →
        (copyFill ms af cf s x n).2.cap = n
      ∧ (copyFill ms af cf s x n).2.size = n
      ∧ ∀ i, i < n → (copyFill ms af cf s x n).2.store i = some x)
  ∧ (0 < n → af n = true → (copyFill ms af cf s x n).1 = some Err.badAlloc)
  ∧ copyFill ms af cf s x 0 = (none, clear s)
  ∧ ((copyRange ms af cf s xs).1 = none → 0 < xs.length →
        (copyRange ms af cf s xs).2.cap = xs.length
      ∧ (copyRange ms af cf s xs).2.size = xs.length
      ∧ ∀ i, (copyRange ms af cf s xs).2.store i = xs[i]?)
  ∧ (0 < xs.length → af xs.length = true →
        (copyRange ms af cf s xs).1 = some Err.badAlloc)
  ∧ copyRange ms af cf s [] = (none, clear s)
  ∧ ((clear s).size = 0 ∧ (clear s).cap = s.cap
      ∧ (clear s).dataNull = s.dataNull) := by
  refine ⟨fun h1 h2 => ?_, fun h2 haf => ?_, ?_, fun h1 h2 => ?_, fun h2 haf => ?_,
    ?_, ?_⟩
  · unfold copyFill at h1 ⊢
    rw [if_pos h2] at h1 ⊢
    split at h1
    next e heq => simp at h1
    next heq =>
      split at h1
      next hcf => simp at h1
      next hcf =>
        rw [if_neg hcf]
        exact ⟨rfl, rfl, fun i hi => by dsimp only; rw [if_pos hi]⟩
  · unfold copyFill allocateData
    rw [if_pos h2]
    by_cases hm : n > ms
    · rw [if_pos hm]
    · rw [if_neg hm, haf, if_pos rfl]
  · unfold copyFill
    rw [if_neg (by omega : ¬ (0:Nat) < 0)]
  · unfold copyRange at h1 ⊢
    rw [if_pos h2] at h1 ⊢
    split at h1
    next e heq => simp at h1
    next heq =>
      split at h1
      next hcf => simp at h1
      next hcf =>
        rw [if_neg hcf]
        exact ⟨rfl, rfl, fun i => rfl⟩
  · unfold copyRange allocateData
    rw [if_pos h2]
    by_cases hm : xs.length > ms
    · rw [if_pos hm]
    · rw [if_neg hm, haf, if_pos rfl]
  · unfold copyRange
    rw [if_neg (by simp : ¬ 0 < ([] : List α).length)]
  · unfold clear
    by_cases hd : s.dataNull = true
    · rw [if_pos hd]
      have hc := hinv.1.mp hd
      have hs := hinv.2.1
      exact ⟨by omega, rfl, rfl⟩
    · rw [if_neg hd]
      exact ⟨by show s.size - s.size = 0; omega, rfl, rfl⟩

theorem darray_assign_exact_capacity_witness :
    (copyFill maxSizeInt (fun _ => false) (fun _ => false) wArr 9 3).2.cap = 3
  ∧ (copyFill maxSizeInt (fun _ => false) (fun _ => false) wArr 9 3).2.size = 3 := by
  have h := (darray_assign_exact_capacity maxSizeInt (fun _ => false)
    (fun _ => false) wArr 9 3 [] wArr_inv).1 (by decide) (by decide)
  exact ⟨h.1, h.2.1⟩

end DynArray
